import Mathlib

/-!
Shallow embedding of the BNSnet/bns-node relay and swarm core.

The central object is `MessageRelay` from
`rings-core/src/message/protocols/relay.rs`: a routing envelope with a
push-only `path` stack, a reverse cursor `path_end_cursor`, an optional
`next_hop` and a `destination`.  Rust `Result` values are embedded as
`RResult`, with an extra `panic` constructor covering Rust panics
(out-of-bounds indexing, `Option::unwrap` on `None`): a function returning
`RResult.panic` models a Rust function that would panic at that input.
DIDs (20-byte addresses) are embedded as natural numbers; only their
decidable equality is relevant to the relay logic.
-/

namespace BnsNode

/-- A DID (20-byte address); only equality matters for the relay logic. -/
abbrev Did := Nat

/-- `RelayMethod` from relay.rs: SEND or REPORT. -/
inductive RelayMethod where
  | SEND : RelayMethod
  | REPORT : RelayMethod
deriving DecidableEq, Repr

/-- The error variants of `rings-core/src/err.rs` used by the relay module. -/
inductive RelayError where
  | InvalidNextHop : RelayError
  | CannotInferNextHop : RelayError
  | ReportNeedSend : RelayError
  | ResetDestinationNeedSend : RelayError
  | InvalidRelayPath : RelayError
  | InvalidRelayDestination : RelayError
deriving DecidableEq, Repr

/-- Rust `Result<α, Error>` together with a `panic` outcome: `panic` models a
Rust panic (index out of bounds, unwrap of `None`). -/
inductive RResult (α : Type) where
  | ok : α → RResult α
  | err : RelayError → RResult α
  | panic : RResult α
deriving DecidableEq, Repr

/-- `MessageRelay` from relay.rs. -/
structure MessageRelay where
  method : RelayMethod
  path : List Did
  path_end_cursor : Nat
  next_hop : Option Did
  destination : Did
deriving DecidableEq, Repr

/-- `path.windows(2).any(|w| w[0] == w[1])`: does the list contain two
adjacent equal elements? -/
def hasAdjacentDup : List Did → Bool
  | a :: b :: rest => a = b || hasAdjacentDup (b :: rest)
  | _ => false

/-- Rust `iter().position(pred)`: index of the first element satisfying the
predicate, if any. -/
def listPosition (pred : Did → Bool) : List Did → Option Nat
  | [] => none
  | a :: rest => if pred a then some 0 else (listPosition pred rest).map (· + 1)

namespace MessageRelay

/-- `MessageRelay::new`: sets `path_end_cursor` to 0 when given `None`. -/
def new (method : RelayMethod) (path : List Did) (path_end_cursor : Option Nat)
    (next_hop : Option Did) (destination : Did) : MessageRelay :=
  { method := method
    path := path
    path_end_cursor := path_end_cursor.getD 0
    next_hop := next_hop
    destination := destination }

/-- `MessageRelay::validate`: rejects adjacent duplicates in `path`; for a
REPORT envelope requires `path[0] == destination`.  The indexing `path[0]`
panics when `path` is empty. -/
def validate (m : MessageRelay) : RResult Unit :=
  if hasAdjacentDup m.path then .err .InvalidRelayPath
  else if m.method = RelayMethod.REPORT then
    match m.path.head? with
    | none => .panic
    | some h => if h ≠ m.destination then .err .InvalidRelayDestination else .ok ()
  else .ok ()

/-- `MessageRelay::path_prev`: `path[len - 2 - cursor]` when the index exists,
`None` otherwise. -/
def path_prev (m : MessageRelay) : Option Did :=
  if m.path.length < m.path_end_cursor + 2 then none
  else m.path.get? (m.path.length - 2 - m.path_end_cursor)

/-- `MessageRelay::origin`: `*path.first().unwrap()`; panics (here: `none`)
on an empty path. -/
def origin? (m : MessageRelay) : Option Did :=
  m.path.head?

/-- `MessageRelay::sender`: origin under SEND, `*path.last().unwrap()` under
REPORT; panics (here: `none`) on an empty path. -/
def sender? (m : MessageRelay) : Option Did :=
  match m.method with
  | RelayMethod.SEND => m.origin?
  | RelayMethod.REPORT => m.path.getLast?

/-- `MessageRelay::relay(current, next_hop)`.  State passing replaces `&mut`:
the `ok` result carries the updated envelope. -/
def relay (m : MessageRelay) (current : Did) (next_hop : Option Did) :
    RResult MessageRelay :=
  match m.validate with
  | .panic => .panic
  | .err e => .err e
  | .ok _ =>
    match m.next_hop with
    | some nh =>
      if nh ≠ current then .err .InvalidNextHop
      else relayDispatch m current next_hop
    | none => relayDispatch m current next_hop
where
  /-- The `match self.method` body of `relay`, after validation and the
  next-hop check. -/
  relayDispatch (m : MessageRelay) (current : Did) (next_hop : Option Did) :
      RResult MessageRelay :=
    match m.method with
    | RelayMethod.SEND =>
      .ok { m with path := m.path ++ [current], next_hop := next_hop }
    | RelayMethod.REPORT =>
      if m.next_hop = some m.destination then
        .ok { m with path_end_cursor := m.path.length - 1, next_hop := none }
      else
        let pos := listPosition (· = current) (m.path.reverse.drop m.path_end_cursor)
        if pos = none ∧ next_hop = none then .err .CannotInferNextHop
        else
          let cursor' := match pos with
            | some p => m.path_end_cursor + p
            | none => m.path_end_cursor
          let m' := { m with path_end_cursor := cursor' }
          .ok { m' with next_hop := next_hop.or m'.path_prev }

/-- `MessageRelay::report`: errors unless SEND with `path.len() >= 2`;
otherwise builds the REPORT envelope.  (`sender` cannot panic there because
the path has at least two elements; the `panic` branch is unreachable.) -/
def report (m : MessageRelay) : RResult MessageRelay :=
  if m.method ≠ RelayMethod.SEND then .err .ReportNeedSend
  else if m.path.length < 2 then .err .CannotInferNextHop
  else
    match m.sender? with
    | none => .panic
    | some snd =>
      .ok { method := RelayMethod.REPORT
            path := m.path
            path_end_cursor := 0
            next_hop := m.path_prev
            destination := snd }

/-- `MessageRelay::reset_destination`: only valid for SEND. -/
def reset_destination (m : MessageRelay) (destination : Did) : RResult MessageRelay :=
  if m.method = RelayMethod.SEND then .ok { m with destination := destination }
  else .err .ResetDestinationNeedSend

end MessageRelay

/-- Successive `relay(current, None)` calls, as in the report-reversal
scenario: stops at the first error or panic. -/
def relayChain (m : MessageRelay) : List Did → RResult MessageRelay
  | [] => .ok m
  | c :: rest =>
    match m.relay c none with
    | .ok m' => relayChain m' rest
    | .err e => .err e
    | .panic => .panic

/-- Successive `relay(current, next_hop)` calls with arbitrary next-hop
arguments: stops at the first error or panic. -/
def relaySeq (m : MessageRelay) : List (Did × Option Did) → RResult MessageRelay
  | [] => .ok m
  | (c, nh) :: rest =>
    match m.relay c nh with
    | .ok m' => relaySeq m' rest
    | .err e => .err e
    | .panic => .panic

/-- Envelopes reachable from a freshly constructed one (`path = [origin]`,
cursor 0) by successful `relay` and `report` operations. -/
inductive Reach : MessageRelay → Prop where
  | init (method : RelayMethod) (origin : Did) (nh : Option Did) (dest : Did) :
      Reach ⟨method, [origin], 0, nh, dest⟩
  | relayStep {m m' : MessageRelay} (c : Did) (nh : Option Did) :
      Reach m → m.relay c nh = .ok m' → Reach m'
  | reportStep {m m' : MessageRelay} :
      Reach m → m.report = .ok m' → Reach m'


/-! ### Swarm registry (bns-core/src/swarm.rs) -/

/-- A transport as seen by the bns-core Swarm registry: an abstract handle
with an identity and a connection flag (`is_connected`).  The concrete ICE
transport lives outside the registry layer. -/
structure Transport where
  tid : Nat
  connected : Bool
deriving DecidableEq, Repr

/-- Modelled from the spec: the in-memory keyed map `MemStorage` backing the
registry (`storage` module, not under src/), together with a per-transport
count of `close()` invocations scheduled by the Swarm.  `table` is the
DID-to-transport map; `closeCount t` counts how often `t.close()` has been
invoked. -/
structure SwarmState where
  table : Did → Option Transport
  closeCount : Transport → Nat

/-- `Swarm::register` (TransportManager impl): `table.set` returns the
displaced transport, whose `close()` is then invoked; the registry layer
itself never errors, so the embedding is total. -/
def SwarmState.register (s : SwarmState) (address : Did) (trans : Transport) :
    SwarmState :=
  let prev := s.table address
  let s1 : SwarmState :=
    { s with table := fun a => if a = address then some trans else s.table a }
  match prev with
  | some t =>
    { s1 with closeCount := fun u => if u = t then s1.closeCount u + 1
                                     else s1.closeCount u }
  | none => s1

/-- `Swarm::get_transport`: plain table lookup. -/
def SwarmState.get_transport (s : SwarmState) (address : Did) : Option Transport :=
  s.table address

/-- `Swarm::get_or_register`: rejects a `default` transport that is not
connected; otherwise `table.get_or_set` returns the existing entry or
inserts `default` (modelled from the spec for `MemStorage::get_or_set`). -/
def SwarmState.get_or_register (s : SwarmState) (address : Did)
    (default : Transport) : Except String (SwarmState × Transport) :=
  if !default.connected then .error "default transport is not connected"
  else
    match s.table address with
    | some t => .ok (s, t)
    | none =>
      .ok ({ s with table := fun a => if a = address then some default
                                      else s.table a }, default)

/-! ### Core swarm handshake and judgement (core/src/swarm/impls.rs) -/

/-- A backend connection: an identity plus its ICE liveness flag as probed
by `get_and_check_connection`. -/
structure Connection where
  cid : Nat
  connected : Bool
deriving DecidableEq, Repr

/-- The error variants of core/src/error.rs used here. -/
inductive CoreError where
  | AlreadyConnected : CoreError
  | NodeBehaviourBad : Did → CoreError
deriving DecidableEq, Repr

/-- The core Swarm state: the transport backend's connection map (modelled
from the spec: the rings_transport backend is not under src/), a counter
feeding fresh connection ids, the number of `new_connection` calls, the
optional measure (`measure.good` as an abstract predicate), and the DIDs for
which a connect was recorded. -/
structure CoreSwarm where
  conns : Did → Option Connection
  nextId : Nat
  createdCount : Nat
  measure : Option (Did → Bool)
  connectRecords : List Did

/-- Modelled from the spec: `backend.get_and_check_connection(did)` returns
the connection only when its state is Connected. -/
def CoreSwarm.get_and_check_connection (s : CoreSwarm) (did : Did) :
    Option Connection :=
  match s.conns did with
  | some c => if c.connected then some c else none
  | none => none

/-- Modelled from the spec: `Swarm::new_connection` asks the backend for a
fresh connection to `did` (initially not Connected). -/
def CoreSwarm.new_connection (s : CoreSwarm) (did : Did) :
    CoreSwarm × Connection :=
  let c : Connection := ⟨s.nextId, false⟩
  ({ s with conns := fun d => if d = did then some c else s.conns d
            nextId := s.nextId + 1
            createdCount := s.createdCount + 1 }, c)

/-- `ConnectionHandshake::prepare_connection_offer`: fail `AlreadyConnected`
when a live connection exists, else create a connection and its offer (the
SDP blob is opaque; the offer is identified with the connection). -/
def CoreSwarm.prepare_connection_offer (s : CoreSwarm) (peer : Did) :
    CoreSwarm × Except CoreError Connection :=
  if (s.get_and_check_connection peer).isSome then
    (s, .error .AlreadyConnected)
  else
    let (s1, c) := s.new_connection peer
    (s1, .ok c)

/-- `ConnectionHandshake::answer_remote_connection`: the live-connection
check precedes offer deserialization, so a live connection fails
`AlreadyConnected` regardless of the offer. -/
def CoreSwarm.answer_remote_connection (s : CoreSwarm) (peer : Did)
    (offer_sdp : Nat) : CoreSwarm × Except CoreError Connection :=
  if (s.get_and_check_connection peer).isSome then
    (s, .error .AlreadyConnected)
  else
    let (s1, c) := s.new_connection peer
    (s1, .ok c)

/-- `Swarm::behaviour_good`: the measure's verdict, or `true` when no
measure is configured. -/
def CoreSwarm.behaviour_good (s : CoreSwarm) (did : Did) : Bool :=
  match s.measure with
  | some good => good did
  | none => true

/-- `Judegement::should_connect` simply delegates to `behaviour_good`. -/
def CoreSwarm.should_connect (s : CoreSwarm) (did : Did) : Bool :=
  s.behaviour_good did

/-- `Judegement::record_connect`: increments the Connect counter when a
measure is configured. -/
def CoreSwarm.record_connect (s : CoreSwarm) (did : Did) : CoreSwarm :=
  match s.measure with
  | some _ => { s with connectRecords := did :: s.connectRecords }
  | none => s

/-- `ConnectionManager::connect`: return the live connection if present,
else create one and send the offer (message sending is outside the backend
state). -/
def CoreSwarm.manager_connect (s : CoreSwarm) (did : Did) :
    CoreSwarm × Except CoreError Connection :=
  match s.get_and_check_connection did with
  | some t => (s, .ok t)
  | none =>
    let (s1, c) := s.new_connection did
    (s1, .ok c)

/-- `ConnectionManager::connect_via`: as `connect`, but the offer travels by
`next_hop`; the backend effect is the same. -/
def CoreSwarm.manager_connect_via (s : CoreSwarm) (did : Did) (next_hop : Did) :
    CoreSwarm × Except CoreError Connection :=
  match s.get_and_check_connection did with
  | some t => (s, .ok t)
  | none =>
    let (s1, c) := s.new_connection did
    (s1, .ok c)

/-- `JudgeConnection::connect`: gate on `should_connect`, then record and
delegate to `ConnectionManager::connect`. -/
def CoreSwarm.judge_connect (s : CoreSwarm) (did : Did) :
    CoreSwarm × Except CoreError Connection :=
  if !s.should_connect did then (s, .error (.NodeBehaviourBad did))
  else (s.record_connect did).manager_connect did

/-- `JudgeConnection::connect_via`: gate on `should_connect`, then record and
delegate to `ConnectionManager::connect_via`. -/
def CoreSwarm.judge_connect_via (s : CoreSwarm) (did : Did) (next_hop : Did) :
    CoreSwarm × Except CoreError Connection :=
  if !s.should_connect did then (s, .error (.NodeBehaviourBad did))
  else (s.record_connect did).manager_connect_via did next_hop

/-! ### Basic lemmas about the embedded operations -/

theorem hasAdjacentDup_eq_false_of_nodup {l : List Did} (h : l.Nodup) :
    hasAdjacentDup l = false := by
  induction l with
  | nil => rfl
  | cons a rest ih =>
    match rest, h with
    | [], _ => rfl
    | b :: rest', h =>
      have hab : a ≠ b := by
        intro hc
        exact (List.nodup_cons.mp h).1 (hc ▸ List.mem_cons_self b rest')
      have htail := (List.nodup_cons.mp h).2
      simp [hasAdjacentDup, hab, ih htail]

theorem listPosition_lt_length {pred : Did → Bool} {l : List Did} {i : Nat}
    (h : listPosition pred l = some i) : i < l.length := by
  induction l generalizing i with
  | nil => simp [listPosition] at h
  | cons a rest ih =>
    by_cases hp : pred a
    · simp [listPosition, hp] at h
      simp only [List.length_cons]
      omega
    · simp [listPosition, hp] at h
      obtain ⟨j, hj, rfl⟩ := h
      have := ih hj
      simp only [List.length_cons]
      omega

theorem listPosition_cons_cons {c h : Did} {rest : List Did} (hne : h ≠ c) :
    listPosition (· = c) (h :: c :: rest) = some 1 := by
  simp [listPosition, hne]

theorem validate_ok_send {m : MessageRelay} (hm : m.method = RelayMethod.SEND)
    (hdup : hasAdjacentDup m.path = false) : m.validate = .ok () := by
  simp [MessageRelay.validate, hdup, hm]

theorem validate_ok_report {m : MessageRelay} (hm : m.method = RelayMethod.REPORT)
    (hdup : hasAdjacentDup m.path = false)
    (hd : m.path.head? = some m.destination) : m.validate = .ok () := by
  simp [MessageRelay.validate, hdup, hm, hd]

theorem validate_err_dest {m : MessageRelay} (hm : m.method = RelayMethod.REPORT)
    (hdup : hasAdjacentDup m.path = false) {a : Did} (hh : m.path.head? = some a)
    (hne : a ≠ m.destination) : m.validate = .err .InvalidRelayDestination := by
  simp [MessageRelay.validate, hdup, hm, hh, hne]

/-- Inversion of a successful `relay` on a SEND envelope: validation went
through and the update pushed `current` and replaced `next_hop`. -/
theorem relay_send_ok {m m' : MessageRelay} {c : Did} {nh : Option Did}
    (hm : m.method = RelayMethod.SEND) (h : m.relay c nh = .ok m') :
    hasAdjacentDup m.path = false ∧
      m' = { m with path := m.path ++ [c], next_hop := nh } := by
  by_cases hdup : hasAdjacentDup m.path
  · exfalso
    simp [MessageRelay.relay, MessageRelay.validate, hdup] at h
  · have hval : m.validate = .ok () := validate_ok_send hm (by simpa using hdup)
    refine ⟨by simpa using hdup, ?_⟩
    unfold MessageRelay.relay at h
    rw [hval] at h
    unfold MessageRelay.relay.relayDispatch at h
    rw [hm] at h
    cases hnh : m.next_hop with
    | none => rw [hnh] at h; cases h; rw [hm]
    | some x =>
      rw [hnh] at h
      by_cases hx : x = c
      · simp only [hx, ne_eq, not_true_eq_false, if_false] at h
        cases h; rw [hm]
      · simp only [ne_eq, hx, not_false_eq_true, if_true] at h
        cases h

/-- A successful `report` together with the exact fields of the produced
envelope, given SEND and a path of length at least two. -/
theorem report_ok_of {m : MessageRelay} (hm : m.method = RelayMethod.SEND)
    (hlen : 2 ≤ m.path.length) :
    ∃ h0, m.path.head? = some h0 ∧
      m.report = .ok ⟨RelayMethod.REPORT, m.path, 0, m.path_prev, h0⟩ := by
  have hnlt : ¬ m.path.length < 2 := by omega
  obtain ⟨a, rest, hp⟩ : ∃ a rest, m.path = a :: rest := by
    cases hpp : m.path with
    | nil => rw [hpp] at hlen; simp at hlen
    | cons a rest => exact ⟨a, rest, rfl⟩
  have hh : m.path.head? = some a := by rw [hp]; rfl
  have hs : m.sender? = some a := by
    simp [MessageRelay.sender?, hm, MessageRelay.origin?, hh]
  refine ⟨a, hh, ?_⟩
  simp [MessageRelay.report, hm, hnlt, hs]

/-- `relayDispatch` itself (the method match inside `relay`) never panics. -/
theorem relayDispatch_ne_panic (m : MessageRelay) (c : Did) (nh : Option Did) :
    MessageRelay.relay.relayDispatch m c nh ≠ .panic := by
  unfold MessageRelay.relay.relayDispatch
  cases m.method
  · simp
  · by_cases h1 : m.next_hop = some m.destination
    · simp [h1]
    · simp only [h1, if_false]
      split
      · simp
      · simp

/-- `validate` panics exactly on REPORT envelopes with an empty path. -/
theorem validate_ne_panic_of_ne_nil {m : MessageRelay} (hne : m.path ≠ []) :
    m.validate ≠ .panic := by
  obtain ⟨a, rest, hp⟩ : ∃ a rest, m.path = a :: rest := by
    cases hpp : m.path with
    | nil => exact absurd hpp hne
    | cons a rest => exact ⟨a, rest, rfl⟩
  unfold MessageRelay.validate
  rw [hp]
  split
  · simp
  · split
    · simp only [List.head?_cons]
      split <;> simp
    · simp

/-- A successful `relay` preserves non-emptiness of the path and the cursor
bound `path_end_cursor + 1 ≤ len(path)`. -/
theorem relay_ok_bound {m m' : MessageRelay} {c : Did} {nh : Option Did}
    (h : m.relay c nh = .ok m') (hne : m.path ≠ [])
    (hb : m.path_end_cursor + 1 ≤ m.path.length) :
    m'.path ≠ [] ∧ m'.path_end_cursor + 1 ≤ m'.path.length := by
  unfold MessageRelay.relay at h
  cases hv : m.validate with
  | panic => rw [hv] at h; cases h
  | err e => rw [hv] at h; cases h
  | ok u =>
    rw [hv] at h
    have hd : MessageRelay.relay.relayDispatch m c nh = .ok m' := by
      cases hnh : m.next_hop with
      | none => rw [hnh] at h; exact h
      | some x =>
        rw [hnh] at h
        by_cases hx : x = c
        · simpa [hx] using h
        · simp [hx] at h
    unfold MessageRelay.relay.relayDispatch at hd
    have hone : 1 ≤ m.path.length := by
      cases hpp : m.path with
      | nil => exact absurd hpp hne
      | cons a rest => simp [hpp]
    cases hm : m.method with
    | SEND =>
      rw [hm] at hd
      cases hd
      refine ⟨by simp, ?_⟩
      simp only [List.length_append, List.length_singleton]
      omega
    | REPORT =>
      rw [hm] at hd
      by_cases h1 : m.next_hop = some m.destination
      · rw [if_pos h1] at hd
        cases hd
        exact ⟨hne, by simp only []; omega⟩
      · rw [if_neg h1] at hd
        simp only at hd
        cases hpos : listPosition (· = c) (m.path.reverse.drop m.path_end_cursor) with
        | none =>
          rw [hpos] at hd
          by_cases h2 : nh = none
          · simp [h2] at hd
          · simp only [h2, and_false, if_false] at hd
            cases hd
            exact ⟨hne, hb⟩
        | some p =>
          rw [hpos] at hd
          simp only [and_false, if_false, reduceCtorEq, false_and] at hd
          cases hd
          refine ⟨hne, ?_⟩
          have hp := listPosition_lt_length hpos
          rw [List.length_drop, List.length_reverse] at hp
          simp only []
          omega

/-- A successful `report` yields an envelope with cursor 0 and a path of
length at least two. -/
theorem report_ok_bound {m m' : MessageRelay} (h : m.report = .ok m') :
    m'.path ≠ [] ∧ m'.path_end_cursor + 1 ≤ m'.path.length := by
  unfold MessageRelay.report at h
  by_cases hm : m.method = RelayMethod.SEND
  · by_cases hlen : m.path.length < 2
    · simp [hm, hlen] at h
    · simp only [hm, ne_eq, not_true_eq_false, if_false, hlen] at h
      cases hs : m.sender? with
      | none => rw [hs] at h; cases h
      | some a =>
        rw [hs] at h
        cases h
        have h2 : 2 ≤ m.path.length := Nat.not_lt.mp hlen
        refine ⟨?_, ?_⟩
        · intro hc
          rw [hc] at h2
          simp at h2
        · simpa using by omega
  · simp [hm] at h

/-- Invariant behind the SEND path-growth law: a successful `relaySeq` on a
SEND envelope whose `path.dropLast` is free of adjacent duplicates keeps the
method, extends the path by one element per call, and keeps `path.dropLast`
free of adjacent duplicates. -/
theorem relaySeq_send_invariant (calls : List (Did × Option Did)) :
    ∀ m m' : MessageRelay, m.method = RelayMethod.SEND →
      hasAdjacentDup m.path.dropLast = false →
      relaySeq m calls = .ok m' →
      m'.method = RelayMethod.SEND ∧
        m'.path.length = m.path.length + calls.length ∧
        hasAdjacentDup m'.path.dropLast = false := by
  induction calls with
  | nil =>
    intro m m' hm hd h
    unfold relaySeq at h
    cases h
    exact ⟨hm, rfl, hd⟩
  | cons p rest ih =>
    intro m m' hm hd h
    obtain ⟨c, nh⟩ := p
    unfold relaySeq at h
    cases hr : m.relay c nh with
    | ok m₁ =>
      rw [hr] at h
      simp only at h
      obtain ⟨hdup, rfl⟩ := relay_send_ok hm hr
      have hstep := ih { m with path := m.path ++ [c], next_hop := nh } m'
        (by simpa using hm) (by simpa [List.dropLast_concat] using hdup) h
      refine ⟨hstep.1, ?_, hstep.2.2⟩
      have hlen := hstep.2.1
      simp only [List.length_append, List.length_singleton, List.length_cons,
        List.length_nil] at hlen ⊢
      omega
    | err e => rw [hr] at h; cases h
    | panic => rw [hr] at h; cases h

/-- Every reachable envelope has a non-empty path and satisfies
`path_end_cursor + 1 ≤ len(path)`. -/
theorem reach_invariant {m : MessageRelay} (h : Reach m) :
    m.path ≠ [] ∧ m.path_end_cursor + 1 ≤ m.path.length := by
  induction h with
  | init method origin nh dest => exact ⟨by simp, by simp⟩
  | relayStep c nh hr hrel ih => exact relay_ok_bound hrel ih.1 ih.2
  | reportStep hr hrep ih => exact report_ok_bound hrep

/-- C2: every envelope reachable from a freshly constructed one
(`path = [origin]`, cursor 0) by successful `relay` and `report` operations
satisfies `0 ≤ path_end_cursor ≤ len(path) - 1`. -/
theorem cursor_bound (m : MessageRelay) (h : Reach m) :
    0 ≤ m.path_end_cursor ∧ m.path_end_cursor ≤ m.path.length - 1 := by
  obtain ⟨hne, hb⟩ := reach_invariant h
  exact ⟨Nat.zero_le _, by omega⟩

/-- Witness for `cursor_bound`: a freshly constructed envelope. -/
theorem cursor_bound_witness :
    0 ≤ (⟨RelayMethod.SEND, [3], 0, none, 7⟩ : MessageRelay).path_end_cursor ∧
      (⟨RelayMethod.SEND, [3], 0, none, 7⟩ : MessageRelay).path_end_cursor
        ≤ (⟨RelayMethod.SEND, [3], 0, none, 7⟩ : MessageRelay).path.length - 1 :=
  cursor_bound _ (Reach.init RelayMethod.SEND 3 none 7)

/-- C3 (amended): starting from a SEND envelope with `path = [origin]`, after
any sequence of successful `relay` calls `len(path)` equals the number of
calls plus one, and `path` minus its final element contains no two adjacent
equal DIDs (the final `relay` call may push a duplicate of the previous top,
which only the next validation would reject). -/
theorem send_path_growth (origin dest : Did) (nh : Option Did) (cursor : Nat)
    (calls : List (Did × Option Did)) (m' : MessageRelay)
    (h : relaySeq ⟨RelayMethod.SEND, [origin], cursor, nh, dest⟩ calls = .ok m') :
    m'.path.length = calls.length + 1 ∧
      hasAdjacentDup m'.path.dropLast = false := by
  have hinv := relaySeq_send_invariant calls _ m' rfl (by rfl) h
  refine ⟨?_, hinv.2.2⟩
  have := hinv.2.1
  simp only [List.length_singleton] at this
  omega

/-- Witness for `send_path_growth`: a concrete two-call run. -/
theorem send_path_growth_witness :
    relaySeq ⟨RelayMethod.SEND, [7], 0, none, 9⟩ [(3, none), (4, none)]
        = .ok ⟨RelayMethod.SEND, [7, 3, 4], 0, none, 9⟩ ∧
      (⟨RelayMethod.SEND, [7, 3, 4], 0, none, 9⟩ : MessageRelay).path.length = 3 ∧
      hasAdjacentDup
        (⟨RelayMethod.SEND, [7, 3, 4], 0, none, 9⟩ : MessageRelay).path.dropLast
        = false := by
  have h : relaySeq ⟨RelayMethod.SEND, [7], 0, none, 9⟩ [(3, none), (4, none)]
      = .ok ⟨RelayMethod.SEND, [7, 3, 4], 0, none, 9⟩ := by rfl
  exact ⟨h, send_path_growth 7 9 none 0 [(3, none), (4, none)] _ h⟩

/-- Counterexample to C3 as stated: one successful `relay(d0, None)` on the
SEND envelope with `path = [d0]` yields the path `[d0, d0]`, which contains
two adjacent equal DIDs. -/
theorem send_path_adjacent_dup_cex :
    relaySeq ⟨RelayMethod.SEND, [0], 0, none, 5⟩ [(0, none)]
        = .ok ⟨RelayMethod.SEND, [0, 0], 0, none, 5⟩ ∧
      hasAdjacentDup [0, 0] = true := by
  exact ⟨rfl, rfl⟩

/-- C4: `report()` errors iff the method is not SEND or the path is shorter
than two; on success it returns a fresh envelope (the receiver, taken by
`&self`, is untouched) with method REPORT, the same path, cursor 0,
`next_hop = path_prev()` and `destination = origin()`. -/
theorem report_spec (m : MessageRelay) :
    ((∃ e, m.report = .err e) ↔
        (m.method ≠ RelayMethod.SEND ∨ m.path.length < 2)) ∧
      (m.method = RelayMethod.SEND → 2 ≤ m.path.length →
        ∃ r, m.report = .ok r ∧ r.method = RelayMethod.REPORT ∧
          r.path = m.path ∧ r.path_end_cursor = 0 ∧
          r.next_hop = m.path_prev ∧ m.origin? = some r.destination) := by
  constructor
  · constructor
    · rintro ⟨e, he⟩
      by_contra hc
      push_neg at hc
      obtain ⟨hm, hlen⟩ := hc
      obtain ⟨h0, _, hok⟩ := report_ok_of hm hlen
      rw [hok] at he
      cases he
    · intro h
      cases h with
      | inl hm => exact ⟨.ReportNeedSend, by simp [MessageRelay.report, hm]⟩
      | inr hlen =>
        by_cases hm : m.method = RelayMethod.SEND
        · exact ⟨.CannotInferNextHop, by simp [MessageRelay.report, hm, hlen]⟩
        · exact ⟨.ReportNeedSend, by simp [MessageRelay.report, hm]⟩
  · intro hm hlen
    obtain ⟨h0, hh, hok⟩ := report_ok_of hm hlen
    exact ⟨_, hok, rfl, rfl, rfl, rfl, by simpa [MessageRelay.origin?] using hh⟩

/-- Witness for `report_spec`: the SEND envelope with path `[1, 2]`. -/
theorem report_spec_witness :
    ∃ r, (⟨RelayMethod.SEND, [1, 2], 0, none, 9⟩ : MessageRelay).report = .ok r ∧
      r.method = RelayMethod.REPORT ∧ r.path = [1, 2] ∧ r.path_end_cursor = 0 ∧
      r.next_hop = (⟨RelayMethod.SEND, [1, 2], 0, none, 9⟩ : MessageRelay).path_prev ∧
      (⟨RelayMethod.SEND, [1, 2], 0, none, 9⟩ : MessageRelay).origin?
        = some r.destination :=
  (report_spec ⟨RelayMethod.SEND, [1, 2], 0, none, 9⟩).2 rfl (by decide)

/-- C5: on a non-empty path, `validate()` rejects adjacent duplicates with
`InvalidRelayPath`; failing that, a REPORT envelope whose `path[0]` differs
from `destination` is rejected with `InvalidRelayDestination`; otherwise it
succeeds. -/
theorem validate_spec (m : MessageRelay) (hne : m.path ≠ []) :
    (hasAdjacentDup m.path = true → m.validate = .err .InvalidRelayPath) ∧
      (hasAdjacentDup m.path = false → m.method = RelayMethod.REPORT →
        m.path.head? ≠ some m.destination →
        m.validate = .err .InvalidRelayDestination) ∧
      (hasAdjacentDup m.path = false →
        (m.method = RelayMethod.REPORT → m.path.head? = some m.destination) →
        m.validate = .ok ()) := by
  obtain ⟨a, rest, hp⟩ : ∃ a rest, m.path = a :: rest := by
    cases hpp : m.path with
    | nil => exact absurd hpp hne
    | cons a rest => exact ⟨a, rest, rfl⟩
  refine ⟨fun hdup => by simp [MessageRelay.validate, hdup], ?_, ?_⟩
  · intro hdup hm hd
    have hh : m.path.head? = some a := by rw [hp]; rfl
    have hd' : a ≠ m.destination := by
      intro hc
      exact hd (by rw [hh, hc])
    exact validate_err_dest hm hdup hh hd'
  · intro hdup hd
    by_cases hm : m.method = RelayMethod.REPORT
    · exact validate_ok_report hm hdup (hd hm)
    · cases hmeth : m.method with
      | SEND => exact validate_ok_send hmeth hdup
      | REPORT => exact absurd hmeth hm

/-- Witness for `validate_spec`: the REPORT-mismatch scenario S4. -/
theorem validate_spec_witness :
    (⟨RelayMethod.REPORT, [0, 1], 0, none, 1⟩ : MessageRelay).validate
      = .err .InvalidRelayDestination :=
  (validate_spec ⟨RelayMethod.REPORT, [0, 1], 0, none, 1⟩ (by decide)).2.1
    rfl rfl (by decide)

/-- C10: with an empty path, `validate` — hence `relay` — panics on REPORT
envelopes, and `origin`/`sender` panic for any method; all four operations
are panic-free once the path is non-empty. -/
theorem empty_path_partiality :
    (∀ cursor nh dest,
        (⟨RelayMethod.REPORT, [], cursor, nh, dest⟩ : MessageRelay).validate
          = .panic) ∧
      (∀ cursor nh dest c nh2,
        (⟨RelayMethod.REPORT, [], cursor, nh, dest⟩ : MessageRelay).relay c nh2
          = .panic) ∧
      (∀ method cursor nh dest,
        (⟨method, [], cursor, nh, dest⟩ : MessageRelay).origin? = none ∧
        (⟨method, [], cursor, nh, dest⟩ : MessageRelay).sender? = none) ∧
      (∀ m : MessageRelay, m.path ≠ [] →
        m.validate ≠ .panic ∧ (∀ c nh2, m.relay c nh2 ≠ .panic) ∧
        m.origin?.isSome ∧ m.sender?.isSome) := by
  refine ⟨fun cursor nh dest => rfl, fun cursor nh dest c nh2 => rfl,
    fun method cursor nh dest => ⟨rfl, by cases method <;> rfl⟩, ?_⟩
  intro m hne
  obtain ⟨a, rest, hp⟩ : ∃ a rest, m.path = a :: rest := by
    cases hpp : m.path with
    | nil => exact absurd hpp hne
    | cons a rest => exact ⟨a, rest, rfl⟩
  refine ⟨validate_ne_panic_of_ne_nil hne, ?_, ?_, ?_⟩
  · intro c nh2
    unfold MessageRelay.relay
    cases hv : m.validate with
    | panic => exact absurd hv (validate_ne_panic_of_ne_nil hne)
    | err e => simp
    | ok u =>
      cases m.next_hop with
      | none => exact relayDispatch_ne_panic m c nh2
      | some x =>
        by_cases hx : x = c
        · simpa [hx] using relayDispatch_ne_panic m c nh2
        · simp [hx]
  · rw [MessageRelay.origin?, hp]; rfl
  · unfold MessageRelay.sender?
    cases m.method
    · rw [MessageRelay.origin?, hp]; rfl
    · rw [hp]
      simp [List.getLast?_eq_getLast (a :: rest) (by simp)]

/-- Witness for `empty_path_partiality`: a singleton-path envelope is
panic-free. -/
theorem empty_path_partiality_witness :
    (⟨RelayMethod.SEND, [5], 0, none, 6⟩ : MessageRelay).validate ≠ .panic :=
  (empty_path_partiality.2.2.2 ⟨RelayMethod.SEND, [5], 0, none, 6⟩ (by decide)).1

theorem relay_final_hop {m : MessageRelay} (hm : m.method = RelayMethod.REPORT)
    (hval : m.validate = .ok ()) (hnh : m.next_hop = some m.destination) :
    m.relay m.destination none
      = .ok { m with path_end_cursor := m.path.length - 1,
                     next_hop := none } := by
  unfold MessageRelay.relay MessageRelay.relay.relayDispatch
  rw [hval]
  simp only [hnh, hm, ne_eq, not_true_eq_false, if_false, if_pos rfl, ite_true]

theorem relay_middle_hop {m : MessageRelay} {c : Did} {p : Nat} {nhres : Option Did}
    (hm : m.method = RelayMethod.REPORT) (hval : m.validate = .ok ())
    (hnh : m.next_hop = some c) (hne : c ≠ m.destination)
    (hpos : listPosition (· = c) (m.path.reverse.drop m.path_end_cursor) = some p)
    (hpp : ({ m with path_end_cursor := m.path_end_cursor + p } :
      MessageRelay).path_prev = nhres) :
    m.relay c none
      = .ok { m with
              path_end_cursor := m.path_end_cursor + p,
              next_hop := nhres } := by
  unfold MessageRelay.relay MessageRelay.relay.relayDispatch
  rw [hval]
  have hcond : ¬ m.next_hop = some m.destination := by
    rw [hnh]; simp [hne]
  rw [hm, hnh] at hpp
  simp only [hnh, hm, ne_eq, not_true_eq_false, if_false, hcond, hpos, Option.none_or,
    reduceCtorEq, false_and, ite_false, Option.some.injEq, hne, hpp]

theorem relayChain_back (g : List Did) :
    ∀ (t0 : Did) (t' : List Did) (d : Did), g ≠ [] →
      (g.reverse ++ t0 :: t').Nodup →
      (g.reverse ++ t0 :: t').head? = some d →
      relayChain ⟨RelayMethod.REPORT, g.reverse ++ t0 :: t', t'.length, g.head?, d⟩ g
        = .ok ⟨RelayMethod.REPORT, g.reverse ++ t0 :: t', g.length + t'.length, none, d⟩ := by
  induction g with
  | nil => intro t0 t' d hg _ _; exact absurd rfl hg
  | cons c g'' ih =>
    intro t0 t' d _ hnd hd
    cases g'' with
    | nil =>
      simp only [List.reverse_cons, List.reverse_nil, List.nil_append,
        List.singleton_append, List.head?_cons, List.length_cons,
        List.length_nil] at hnd hd ⊢
      obtain rfl : c = d := by simpa using hd
      have hval : (⟨RelayMethod.REPORT, c :: t0 :: t', t'.length, some c, c⟩ :
          MessageRelay).validate = .ok () :=
        validate_ok_report rfl (hasAdjacentDup_eq_false_of_nodup hnd) rfl
      have hstep := relay_final_hop
        (m := ⟨RelayMethod.REPORT, c :: t0 :: t', t'.length, some c, c⟩)
        rfl hval rfl
      unfold relayChain
      rw [hstep]
      unfold relayChain
      simp [Nat.add_comm]
    | cons c1 rest =>
      -- abbreviate the tail of the call list
      have hgne : (c1 :: rest).reverse ≠ [] := by simp
      have hrev : (c :: c1 :: rest).reverse ++ t0 :: t'
          = (c1 :: rest).reverse ++ c :: t0 :: t' := by
        simp [List.reverse_cons, List.append_assoc]
      have hd2 : ((c1 :: rest).reverse ++ c :: t0 :: t').head? = some d := by
        rw [← hrev]; exact hd
      have hd3 : (c1 :: rest).reverse.head? = some d := by
        rw [List.head?_append_of_ne_nil _ hgne] at hd2
        exact hd2
      have hdmem : d ∈ c1 :: rest := by
        have : d ∈ (c1 :: rest).reverse := by
          cases hrv : (c1 :: rest).reverse with
          | nil => exact absurd hrv hgne
          | cons a l =>
            rw [hrv] at hd3
            simp only [List.head?_cons, Option.some.injEq] at hd3
            simp [hd3]
        exact List.mem_reverse.mp this
      have hndrev : ((c1 :: rest).reverse ++ c :: t0 :: t').Nodup := by
        rw [← hrev]; exact hnd
      have hnodupg : (c :: c1 :: rest).Nodup := by
        have h1 : ((c :: c1 :: rest).reverse ++ t0 :: t').Nodup := hnd
        have h2 := (List.nodup_append.mp h1).1
        exact List.nodup_reverse.mp h2
      have hcnot : c ∉ c1 :: rest := (List.nodup_cons.mp hnodupg).1
      have hcd : c ≠ d := fun h => hcnot (h ▸ hdmem)
      have hcmem : c ∈ (c :: c1 :: rest).reverse :=
        List.mem_reverse.mpr (List.mem_cons_self c (c1 :: rest))
      have hdisj := (List.nodup_append.mp hnd).2.2
      have hcnt : c ∉ t0 :: t' := fun hmem => hdisj hcmem hmem
      have ht0c : t0 ≠ c := fun h => hcnt (h ▸ List.mem_cons_self t0 t')
      -- the scanned suffix of the reversed path
      have hdroplist :
          ((c :: c1 :: rest).reverse ++ t0 :: t').reverse.drop ((t0 :: t').length - 1)
            = t0 :: c :: c1 :: rest := by
        rw [List.reverse_append, List.reverse_reverse]
        have h1 : (t0 :: t').reverse = t'.reverse ++ [t0] := by
          simp [List.reverse_cons]
        rw [h1, List.append_assoc]
        have h2 : (t0 :: t').length - 1 = t'.reverse.length := by
          simp
        rw [h2, List.drop_left]
        simp
      have hpos : listPosition (· = c)
          (((c :: c1 :: rest).reverse ++ t0 :: t').reverse.drop
            ((t0 :: t').length - 1)) = some 1 := by
        rw [hdroplist]
        exact listPosition_cons_cons ht0c
      have hval : (⟨RelayMethod.REPORT, (c :: c1 :: rest).reverse ++ t0 :: t',
          t'.length, some c, d⟩ : MessageRelay).validate = .ok () :=
        validate_ok_report rfl (hasAdjacentDup_eq_false_of_nodup hnd) hd
      have hcond2 : ¬ (((c :: c1 :: rest).reverse ++ t0 :: t').length
          < (t'.length + 1) + 2) := by
        simp only [List.length_append, List.length_reverse, List.length_cons]
        omega
      have hidx : ((c :: c1 :: rest).reverse ++ t0 :: t').length - 2 - (t'.length + 1)
          = rest.length := by
        simp only [List.length_append, List.length_reverse, List.length_cons]
        omega
      have h3 : (c1 :: rest).reverse.get? rest.length
          = (c1 :: rest).reverse.getLast? := by
        rw [List.getLast?_eq_get?]
        congr 1
        simp
      have pp : (⟨RelayMethod.REPORT, (c :: c1 :: rest).reverse ++ t0 :: t',
          t'.length + 1, some c, d⟩ : MessageRelay).path_prev = some c1 := by
        show (if ((c :: c1 :: rest).reverse ++ t0 :: t').length < (t'.length + 1) + 2
          then none
          else ((c :: c1 :: rest).reverse ++ t0 :: t').get?
            (((c :: c1 :: rest).reverse ++ t0 :: t').length - 2 - (t'.length + 1)))
          = some c1
        rw [if_neg hcond2, hidx, hrev, List.get?_append (by simp), h3,
          List.getLast?_reverse]
        rfl
      have hstep := relay_middle_hop
        (m := ⟨RelayMethod.REPORT, (c :: c1 :: rest).reverse ++ t0 :: t',
          t'.length, some c, d⟩)
        rfl hval rfl hcd (by simpa using hpos) pp
      have chainIH := ih c (t0 :: t') d (by simp) hndrev hd2
      rw [← hrev] at chainIH
      simp only [List.length_cons, List.head?_cons] at chainIH
      simp only [List.head?_cons]
      unfold relayChain
      rw [hstep]
      simp only []
      rw [chainIH]
      simp only [RResult.ok.injEq, MessageRelay.mk.injEq, List.length_cons,
        true_and, and_true]
      omega

/-- The penultimate element of `l₁ ++ [x]` (index `len - 2`) is the last
element of `l₁`. -/
theorem get?_penultimate (l₁ : List Did) (x : Did) (h : l₁ ≠ []) :
    (l₁ ++ [x]).get? ((l₁ ++ [x]).length - 2) = l₁.getLast? := by
  have h1 : (l₁ ++ [x]).length = l₁.length + 1 := by simp
  have hlpos : 1 ≤ l₁.length := by
    cases l₁ with
    | nil => exact absurd rfl h
    | cons a l => simp
  have h2 : l₁.length + 1 - 2 = l₁.length - 1 := by omega
  rw [h1, h2, List.get?_append (by omega), ← List.getLast?_eq_get?]

/-- C1 (amended): for a SEND envelope whose path has length at least two and
consists of pairwise distinct DIDs, `report()` succeeds with the same path,
cursor 0, `next_hop = path[len-2]` and `destination = path[0]`, and relaying
the report back through `path[len-2], …, path[0]` with `None` next hops
succeeds at every step and ends with `next_hop = None` and
`path_end_cursor = len(path) - 1`; in particular the `[d0,d1,d2,d3]`
scenario passes through `cursor=1, next_hop=d1` and `cursor=2, next_hop=d0`. -/
theorem report_reversal (p : List Did) (dest : Did) (nh : Option Did)
    (hlen : 2 ≤ p.length) (hnd : p.Nodup) :
    (∃ r, (⟨RelayMethod.SEND, p, 0, nh, dest⟩ : MessageRelay).report = .ok r ∧
      r.method = RelayMethod.REPORT ∧ r.path = p ∧ r.path_end_cursor = 0 ∧
      r.next_hop = p.get? (p.length - 2) ∧ p.head? = some r.destination ∧
      ∃ f, relayChain r p.dropLast.reverse = .ok f ∧
        f.next_hop = none ∧ f.path_end_cursor = p.length - 1 ∧ f.path = p) ∧
    (relayChain ⟨RelayMethod.REPORT, [0, 1, 2, 3], 0, some 2, 0⟩ [2]
        = .ok ⟨RelayMethod.REPORT, [0, 1, 2, 3], 1, some 1, 0⟩ ∧
      relayChain ⟨RelayMethod.REPORT, [0, 1, 2, 3], 1, some 1, 0⟩ [1]
        = .ok ⟨RelayMethod.REPORT, [0, 1, 2, 3], 2, some 0, 0⟩) := by
  obtain ⟨h0, hh, hok⟩ :=
    report_ok_of (m := ⟨RelayMethod.SEND, p, 0, nh, dest⟩) rfl hlen
  have hne : p ≠ [] := by
    intro hc
    rw [hc] at hlen
    simp at hlen
  have hdll : p.dropLast.length = p.length - 1 := List.length_dropLast p
  have hdlne : p.dropLast ≠ [] := by
    intro hc
    rw [hc] at hdll
    simp at hdll
    omega
  have hgne : p.dropLast.reverse ≠ [] := by
    simpa [List.reverse_eq_nil_iff] using hdlne
  have hsplit : p = p.dropLast ++ [p.getLast hne] :=
    (List.dropLast_append_getLast hne).symm
  have hform : p.dropLast.reverse.reverse ++ p.getLast hne :: ([] : List Did)
      = p := by
    rw [List.reverse_reverse]
    exact List.dropLast_append_getLast hne
  have hnd2 :
      (p.dropLast.reverse.reverse ++ p.getLast hne :: ([] : List Did)).Nodup := by
    rw [hform]; exact hnd
  have hd2 :
      (p.dropLast.reverse.reverse ++ p.getLast hne :: ([] : List Did)).head?
        = some h0 := by
    rw [hform]; exact hh
  have hchain :=
    relayChain_back p.dropLast.reverse (p.getLast hne) [] h0 hgne hnd2 hd2
  rw [hform] at hchain
  simp only [List.length_nil, List.length_reverse, List.length_dropLast,
    List.head?_reverse, Nat.add_zero] at hchain
  have hpp : (⟨RelayMethod.SEND, p, 0, nh, dest⟩ : MessageRelay).path_prev
      = p.get? (p.length - 2) := by
    show (if p.length < 0 + 2 then none else p.get? (p.length - 2 - 0))
      = p.get? (p.length - 2)
    rw [if_neg (by omega), Nat.sub_zero]
  have hglue : p.get? (p.length - 2) = p.dropLast.getLast? := by
    conv_lhs => rw [hsplit]
    exact get?_penultimate p.dropLast (p.getLast hne) hdlne
  have hreq : (⟨RelayMethod.REPORT, p, 0,
        (⟨RelayMethod.SEND, p, 0, nh, dest⟩ : MessageRelay).path_prev, h0⟩ :
        MessageRelay)
      = ⟨RelayMethod.REPORT, p, 0, p.dropLast.getLast?, h0⟩ := by
    rw [hpp, hglue]
  refine ⟨⟨_, hok, rfl, rfl, rfl, hpp, hh, ?_⟩, rfl, rfl⟩
  refine ⟨_, by rw [hreq]; exact hchain, rfl, rfl, rfl⟩

/-- Counterexample to C1 as stated: the SEND envelope with the duplicate-free
adjacency but repeated-DID path `[0, 1, 0, 2]` has a valid `report()`, yet
relaying the report back through `path[2], path[1], path[0] = 0, 1, 0` fails
at the second step with `CannotInferNextHop` instead of succeeding at every
step. -/
theorem report_reversal_cex :
    (⟨RelayMethod.SEND, [0, 1, 0, 2], 0, none, 9⟩ : MessageRelay).report
        = .ok ⟨RelayMethod.REPORT, [0, 1, 0, 2], 0, some 0, 0⟩ ∧
      ([0, 1, 0, 2] : List Did).dropLast.reverse = [0, 1, 0] ∧
      relayChain ⟨RelayMethod.REPORT, [0, 1, 0, 2], 0, some 0, 0⟩ [0, 1, 0]
        = .err .CannotInferNextHop :=
  ⟨rfl, rfl, rfl⟩

/-- Witness for `report_reversal`: the distinct path `[0, 1, 2, 3]`. -/
theorem report_reversal_witness :
    ∃ r, (⟨RelayMethod.SEND, [0, 1, 2, 3], 0, none, 3⟩ : MessageRelay).report
        = .ok r ∧
      r.method = RelayMethod.REPORT ∧ r.path = [0, 1, 2, 3] ∧
      r.path_end_cursor = 0 ∧
      r.next_hop = ([0, 1, 2, 3] : List Did).get?
        (([0, 1, 2, 3] : List Did).length - 2) ∧
      ([0, 1, 2, 3] : List Did).head? = some r.destination ∧
      ∃ f, relayChain r ([0, 1, 2, 3] : List Did).dropLast.reverse = .ok f ∧
        f.next_hop = none ∧
        f.path_end_cursor = ([0, 1, 2, 3] : List Did).length - 1 ∧
        f.path = [0, 1, 2, 3] :=
  (report_reversal [0, 1, 2, 3] 3 none (by decide) (by decide)).1


/-- C6: for any DID and transports, registering c0 then c1 leaves the
registry holding exactly c1 for that DID, with `close()` invoked on the
displaced c0 exactly once; `register` is total (the registry layer has no
error path), so the overwrite always succeeds. -/
theorem register_overwrite_closes (s : SwarmState) (d : Did) (c0 c1 : Transport)
    (h0 : s.table d = none) (hc : s.closeCount c0 = 0) :
    ((s.register d c0).register d c1).get_transport d = some c1 ∧
      ((s.register d c0).register d c1).closeCount c0 = 1 := by
  have h1 : s.register d c0
      = { s with table := fun a => if a = d then some c0 else s.table a } := by
    unfold SwarmState.register
    rw [h0]
  rw [h1]
  unfold SwarmState.register
  simp only [if_pos rfl]
  constructor
  · unfold SwarmState.get_transport
    simp
  · simp [hc]

/-- Witness for `register_overwrite_closes`: an empty registry and two
distinct transports. -/
theorem register_overwrite_closes_witness :
    ((((⟨fun _ => none, fun _ => 0⟩ : SwarmState).register 1 ⟨0, true⟩).register
        1 ⟨1, true⟩).get_transport 1 = some ⟨1, true⟩) ∧
      ((((⟨fun _ => none, fun _ => 0⟩ : SwarmState).register 1 ⟨0, true⟩).register
        1 ⟨1, true⟩).closeCount ⟨0, true⟩ = 1) :=
  register_overwrite_closes ⟨fun _ => none, fun _ => 0⟩ 1 ⟨0, true⟩ ⟨1, true⟩
    rfl rfl

/-- C8: `get_or_register` rejects a disconnected default without touching
the registry (the error branch returns no successor state), while raw
`register` stores any transport — connected or not — for its address. -/
theorem get_or_register_connected_gate (s : SwarmState) (address : Did)
    (default : Transport) (h : default.connected = false) :
    s.get_or_register address default
        = .error "default transport is not connected" ∧
      ∀ t : Transport, (s.register address t).get_transport address = some t := by
  constructor
  · unfold SwarmState.get_or_register
    rw [h]
    rfl
  · intro t
    unfold SwarmState.register SwarmState.get_transport
    cases hp : s.table address <;> simp

/-- Witness for `get_or_register_connected_gate`: a disconnected default. -/
theorem get_or_register_connected_gate_witness :
    ((⟨fun _ => none, fun _ => 0⟩ : SwarmState).get_or_register 2 ⟨5, false⟩
        = .error "default transport is not connected") ∧
      ∀ t : Transport,
        ((⟨fun _ => none, fun _ => 0⟩ : SwarmState).register 2 t).get_transport 2
          = some t :=
  get_or_register_connected_gate ⟨fun _ => none, fun _ => 0⟩ 2 ⟨5, false⟩ rfl

/-- C7: with a live connection to `peer` in the backend, both
`prepare_connection_offer` and `answer_remote_connection` fail
`AlreadyConnected` and leave the swarm state — in particular the count of
created connections — unchanged. -/
theorem handshake_already_connected (s : CoreSwarm) (peer : Did)
    (c : Connection) (offer : Nat)
    (h : s.get_and_check_connection peer = some c) :
    s.prepare_connection_offer peer = (s, .error .AlreadyConnected) ∧
      s.answer_remote_connection peer offer = (s, .error .AlreadyConnected) := by
  have hs : (s.get_and_check_connection peer).isSome = true := by
    rw [h]; rfl
  constructor
  · unfold CoreSwarm.prepare_connection_offer
    rw [if_pos hs]
  · unfold CoreSwarm.answer_remote_connection
    rw [if_pos hs]

/-- Witness for `handshake_already_connected`: a backend holding one live
connection. -/
theorem handshake_already_connected_witness :
    ((⟨fun d => if d = 4 then some ⟨0, true⟩ else none, 1, 1, none, []⟩ :
        CoreSwarm).prepare_connection_offer 4
      = (⟨fun d => if d = 4 then some ⟨0, true⟩ else none, 1, 1, none, []⟩,
          .error .AlreadyConnected)) ∧
      ((⟨fun d => if d = 4 then some ⟨0, true⟩ else none, 1, 1, none, []⟩ :
        CoreSwarm).answer_remote_connection 4 7
      = (⟨fun d => if d = 4 then some ⟨0, true⟩ else none, 1, 1, none, []⟩,
          .error .AlreadyConnected)) :=
  handshake_already_connected
    ⟨fun d => if d = 4 then some ⟨0, true⟩ else none, 1, 1, none, []⟩ 4
    ⟨0, true⟩ 7 rfl

/-- C9: without a configured measure, `should_connect` is true for every
DID; and whenever `should_connect` is false, `JudgeConnection::connect` and
`connect_via` return `NodeBehaviourBad(did)` with the state untouched — no
connect is recorded and no connection attempted. -/
theorem judge_connect_gating :
    (∀ (s : CoreSwarm) (did : Did), s.measure = none →
      s.should_connect did = true) ∧
      (∀ (s : CoreSwarm) (did : Did), s.should_connect did = false →
        s.judge_connect did = (s, .error (.NodeBehaviourBad did)) ∧
        ∀ nh, s.judge_connect_via did nh
          = (s, .error (.NodeBehaviourBad did))) := by
  constructor
  · intro s did hm
    unfold CoreSwarm.should_connect CoreSwarm.behaviour_good
    rw [hm]
  · intro s did hs
    constructor
    · unfold CoreSwarm.judge_connect
      rw [hs]
      rfl
    · intro nh
      unfold CoreSwarm.judge_connect_via
      rw [hs]
      rfl

/-- Witness for `judge_connect_gating`: a measure-free swarm, and a swarm
whose measure condemns DID 3. -/
theorem judge_connect_gating_witness :
    ((⟨fun _ => none, 0, 0, none, []⟩ : CoreSwarm).should_connect 3 = true) ∧
      ((⟨fun _ => none, 0, 0, some (fun _ => false), []⟩ :
          CoreSwarm).judge_connect 3
        = (⟨fun _ => none, 0, 0, some (fun _ => false), []⟩,
            .error (.NodeBehaviourBad 3))) :=
  ⟨judge_connect_gating.1 ⟨fun _ => none, 0, 0, none, []⟩ 3 rfl,
    (judge_connect_gating.2 ⟨fun _ => none, 0, 0, some (fun _ => false), []⟩ 3
      rfl).1⟩


end BnsNode
